import Mathlib

/-!
Verification development for the wget2 retrieval engine (src/wget.c, src/options.c).
Shallow embedding of the functions the claims C1..C10 are about, followed by the
theorems settling each claim.
-/

namespace Wget2

/-! ## libwget collaborator: ASCII case-insensitive string comparison

The functions below embed wget_strcasecmp_ascii, the libwget string helper used
throughout src/wget.c and src/options.c.  It behaves like strcasecmp restricted
to ASCII: result 0 iff the strings are equal ignoring ASCII case, otherwise the
sign of the first differing (lowercased) character pair. -/

def asciiLower (c : Char) : Char :=
  if 'A' ≤ c ∧ c ≤ 'Z' then Char.ofNat (c.toNat + 32) else c

def strcasecmpAsciiChars : List Char → List Char → Int
  | [], [] => 0
  | [], _ :: _ => -1
  | _ :: _, [] => 1
  | c1 :: s1, c2 :: s2 =>
    let l1 := asciiLower c1
    let l2 := asciiLower c2
    if l1.toNat < l2.toNat then -1
    else if l2.toNat < l1.toNat then 1
    else strcasecmpAsciiChars s1 s2

def wget_strcasecmp_ascii (s1 s2 : String) : Int :=
  strcasecmpAsciiChars s1.data s2.data

/-! ## Challenge selection (src/wget.c, function with source name starting
with an underscore and ending in authorize_header, lines 2978..3028)

The C loop is, verbatim in structure:

  for each challenge:
    if (wget_strcasecmp_ascii(challenge->auth_scheme, "digest")) \x7b
      selected_challenge = challenge; break;
    \x7d else if (wget_strcasecmp_ascii(challenge->auth_scheme, "basic")) \x7b
      if (!selected_challenge) selected_challenge = challenge;
    \x7d

Note the conditions test the comparison result directly (nonzero means the
schemes DIFFER), although the comment above the loop in the source reads
Prefer Digest over Basic. -/

structure HttpChallenge where
  auth_scheme : String
deriving DecidableEq

def select_challenge_loop : List HttpChallenge → Option HttpChallenge → Option HttpChallenge
  | [], selected => selected
  | challenge :: rest, selected =>
    if wget_strcasecmp_ascii challenge.auth_scheme "digest" ≠ 0 then
      some challenge
    else if wget_strcasecmp_ascii challenge.auth_scheme "basic" ≠ 0 then
      select_challenge_loop rest (if selected = none then some challenge else selected)
    else
      select_challenge_loop rest selected

def add_authorize_header_select (challenges : List HttpChallenge) : Option HttpChallenge :=
  select_challenge_loop challenges none

/-! ## Redirect gate of add_url (src/wget.c lines 638..641, 814)

  if (flags and URL_FLG_REDIRECTION) \x7b
    if (config.max_redirect and job and job->redirection_level >= config.max_redirect)
      return;          // note: silent, no diagnostic on this path
  \x7d

and, when the successor job is built (line 814):
  new_job->redirection_level = job->redirection_level + 1; -/

structure RedirectGateResult where
  stopped : Bool
  diagnostic : Option String
deriving DecidableEq

def add_url_redirect_gate (max_redirect redirection_level : Int) : RedirectGateResult :=
  if max_redirect ≠ 0 ∧ max_redirect ≤ redirection_level then
    { stopped := true, diagnostic := none }
  else
    { stopped := false, diagnostic := none }

def redirect_successor_level (redirection_level : Int) : Int :=
  redirection_level + 1

/-! ## Exit status accumulation (src/options.c lines 65..84)

  if (exit_status) \x7b
    if ((int) status < exit_status) exit_status = status;
  \x7d else exit_status = status;

All codes of the exit_status_t enum are nonnegative (spec section 6: codes
0..8), so the state is a Nat. -/

def set_exit_status (exit_status status : Nat) : Nat :=
  if exit_status ≠ 0 then
    if status < exit_status then status else exit_status
  else status

def exit_status_after (statuses : List Nat) : Nat :=
  statuses.foldl set_exit_status 0

def WG_EXIT_STATUS_AUTH : Nat := 6

/-! ## parse_bool (src/options.c lines 475..489)

  if (!val || !strcmp(val, "1") || !wget_strcasecmp_ascii(val, "y")
      || !wget_strcasecmp_ascii(val, "yes") || !wget_strcasecmp_ascii(val, "on"))
    *var = !invert;
  else if (!*val || !strcmp(val, "0") || !wget_strcasecmp_ascii(val, "n")
      || !wget_strcasecmp_ascii(val, "no") || !wget_strcasecmp_ascii(val, "off"))
    *var = invert;
  else \x7b error_printf(...); return -1; \x7d

The written option value is returned in the ok case; -1 becomes the error case. -/

def parse_bool (val : Option String) (invert : Bool) : Except Unit Bool :=
  match val with
  | none => Except.ok (!invert)
  | some v =>
    if v = "1" ∨ wget_strcasecmp_ascii v "y" = 0 ∨ wget_strcasecmp_ascii v "yes" = 0
        ∨ wget_strcasecmp_ascii v "on" = 0 then
      Except.ok (!invert)
    else if v = "" ∨ v = "0" ∨ wget_strcasecmp_ascii v "n" = 0
        ∨ wget_strcasecmp_ascii v "no" = 0 ∨ wget_strcasecmp_ascii v "off" = 0 then
      Except.ok invert
    else
      Except.error ()

/-! ## Jittered pacing sleep (src/wget.c lines 1891..1897)

  if (config.wait) \x7b
    if (config.random_wait)
      wget_millisleep(rand() % config.wait + config.wait / 2);
    else
      wget_millisleep(config.wait);
  \x7d

The random draw rand() is modelled by an arbitrary Nat. -/

def random_wait_sleep (wait draw : Nat) : Nat :=
  draw % wait + wait / 2

/-! ## 401 handling in process_response_header (src/wget.c lines 1440..1455)

  if (resp->code == 401) \x7b
    job->auth_failure_count++;
    if (job->auth_failure_count > 1 || !resp->challenges) \x7b
      set_exit_status(WG_EXIT_STATUS_AUTH);
      return 1;
    \x7d
    job->challenges = resp->challenges;
    job->inuse = 0;
    return 1;
  \x7d

auth_failure_count is modified nowhere else in src/wget.c; a non-401
response leaves the authentication fields of the job untouched. -/

structure JobAuthState where
  auth_failure_count : Nat
  challenges : Option (List HttpChallenge)
  inuse : Bool
  exit_status : Nat
deriving DecidableEq

def process_response_401 (job : JobAuthState)
    (resp_challenges : Option (List HttpChallenge)) : JobAuthState :=
  let count := job.auth_failure_count + 1
  if 1 < count ∨ resp_challenges = none then
    { job with
        auth_failure_count := count
        exit_status := set_exit_status job.exit_status WG_EXIT_STATUS_AUTH }
  else
    { job with
        auth_failure_count := count
        challenges := resp_challenges
        inuse := false }

def process_response_auth (job : JobAuthState) (code : Nat)
    (resp_challenges : Option (List HttpChallenge)) : JobAuthState :=
  if code = 401 then process_response_401 job resp_challenges else job

def run_responses : JobAuthState → List (Nat × Option (List HttpChallenge)) → JobAuthState
  | job, [] => job
  | job, (code, ch) :: rest => run_responses (process_response_auth job code ch) rest

def job0 : JobAuthState :=
  { auth_failure_count := 0, challenges := none, inuse := true, exit_status := 0 }

/-! ## The GET_RESPONSE arm of downloader_thread (src/wget.c lines 1918..1940)

  resp = http_receive_response(downloader->conn);
  if (!resp) \x7b host_increase_failure(host); action = ACTION_ERROR; break; \x7d
  host_reset_failure(host);
  ...
  if (process_response_header(resp) == 0) \x7b
    if (job->head_first) process_head_response(resp);
    else if (job->part) process_response_part(resp);
    else process_response(resp);
  \x7d

The arm is embedded as the ordered list of host/dispatch events it performs;
header_rc stands for the value returned by process_response_header. -/

inductive WorkerEvent where
  | increaseFailure
  | resetFailure
  | dispatchHead
  | dispatchPart
  | dispatchNormal
deriving DecidableEq

structure RespState where
  code : Nat
  header_rc : Nat
  head_first : Bool
  has_part : Bool
deriving DecidableEq

def get_response_step (resp : Option RespState) : List WorkerEvent :=
  match resp with
  | none => [WorkerEvent.increaseFailure]
  | some r =>
    WorkerEvent.resetFailure ::
      (if r.header_rc = 0 then
        [if r.head_first then WorkerEvent.dispatchHead
         else if r.has_part then WorkerEvent.dispatchPart
         else WorkerEvent.dispatchNormal]
      else [])

def WorkerEvent.isDispatch : WorkerEvent → Bool
  | WorkerEvent.dispatchHead => true
  | WorkerEvent.dispatchPart => true
  | WorkerEvent.dispatchNormal => true
  | _ => false

def resp200 : RespState :=
  { code := 200, header_rc := 0, head_first := false, has_part := false }

/-! ## Chunked metalink synthesis in process_head_response
(src/wget.c lines 1534..1564)

  if (config.spider || !config.chunk_size) \x7b ... \x7d
  else if (config.chunk_size && resp->content_length > config.chunk_size) \x7b
    wget_metalink_piece_t piece = \x7b .length = config.chunk_size \x7d;
    metalink->size = resp->content_length;
    ssize_t npieces = (resp->content_length + config.chunk_size - 1) / config.chunk_size;
    for (it = 0; it < npieces; it++) \x7b
      piece.position = it * config.chunk_size;
      wget_vector_add(metalink->pieces, &piece, ...);
    \x7d
    ...
  \x7d else if (config.chunk_size) \x7b
    job->inuse = 0;   // redo the job as a plain GET, no metalink, no parts
  \x7d -/

structure MetalinkPiece where
  position : Nat
  length : Nat
deriving DecidableEq

structure MetalinkSynth where
  size : Nat
  pieces : List MetalinkPiece
deriving DecidableEq

def synthesize_metalink (content_length chunk_size : Nat) : MetalinkSynth :=
  let npieces := (content_length + chunk_size - 1) / chunk_size
  { size := content_length
    pieces := (List.range npieces).map fun it =>
      { position := it * chunk_size, length := chunk_size } }

inductive HeadNext where
  | scanPath
  | chunkedDownload (metalink : MetalinkSynth)
  | plainRetry
deriving DecidableEq

def process_head_response_next (spider : Bool) (chunk_size content_length : Nat) : HeadNext :=
  if spider = true ∨ chunk_size = 0 then
    HeadNext.scanPath
  else if chunk_size ≠ 0 ∧ chunk_size < content_length then
    HeadNext.chunkedDownload (synthesize_metalink content_length chunk_size)
  else
    HeadNext.plainRetry

/-! ## Parts built from the pieces

Modelled from the spec: the part construction lives in job.c, which is not
under src/ (src/wget.c only consumes job->parts).  The spec gives the Part
data model \x7bid, position, length\x7d with the invariant that the sum of the
part lengths equals metalink.size and that positions are non-overlapping and
monotone in id; we model the construction as one part per piece, laid out
consecutively from position 0, each taking the length of its piece capped by
the bytes still remaining below metalink.size. -/

structure PART where
  id : Nat
  position : Nat
  length : Nat
deriving DecidableEq

def job_create_parts_loop : List MetalinkPiece → Nat → Nat → Nat → List PART
  | [], _, _, _ => []
  | piece :: rest, i, pos, fsize =>
    let len := min piece.length fsize
    { id := i, position := pos, length := len } ::
      job_create_parts_loop rest (i + 1) (pos + len) (fsize - piece.length)

def job_create_parts (size : Nat) (pieces : List MetalinkPiece) : List PART :=
  job_create_parts_loop pieces 1 0 size

/-! ## Range header of a part request (src/wget.c lines 3143..3145)

  if (job->part)
    wget_http_add_header_printf(req, "Range", "bytes=%llu-%llu",
      job->part->position, job->part->position + job->part->length - 1); -/

def part_range_header (part : PART) : Nat × Nat :=
  (part.position, part.position + part.length - 1)

def job_range_header (part : Option PART) : Option (Nat × Nat) :=
  Option.map part_range_header part

/-- Consecutive layout of a part list starting at a given position. -/
def chainedFrom : Nat → List PART → Bool
  | _, [] => true
  | pos, p :: ps => decide (p.position = pos) && chainedFrom (pos + p.length) ps

/-- Strict ordering between two parts: larger id, strictly larger position,
and byte ranges that do not overlap. -/
def partBefore (a b : PART) : Prop :=
  a.id < b.id ∧ a.position < b.position ∧ a.position + a.length ≤ b.position

instance (a b : PART) : Decidable (partBefore a b) := by
  unfold partBefore
  infer_instance

/-! ## Config-file include recursion (src/options.c lines 2075..2182)

  static int level;
  if (++level > 20) \x7b error; level--; return -2; \x7d
  if (expand) \x7b glob; ret = _read_config(match, 0); level--; return ret; \x7d
  if (!(fp = fopen(cfgfile))) \x7b error; level--; return -1; \x7d
  while (ret == 0 and a line remains)
    if the line is include val: ret = _read_config(val, 1);
    else set_long_option(...);
  level--; return ret;

Every include first enters an expand frame (expand = 1, for glob) and then a
read frame (expand = 0), each incrementing the static level, so one include
costs two increments against the cap of 20.  The embedding replaces the
static level by the remaining budget bud = 20 - level (entry check
level+1 > 20 is exactly bud = 0, and every nested call passes bud - 1), and
merges the expand frame with the read frame it always wraps: the two budget
units appear as the two leading cases.  glob is modelled as returning the
literal path; files are named by Nat; option lines are modelled as
succeeding (set_long_option is irrelevant to the recursion).  The result is
(return code, number of files opened and read). -/

inductive ConfLine where
  | option
  | inc (path : Nat)
deriving DecidableEq

abbrev ConfigFS := List (Nat × List ConfLine)

def run_lines (step : Nat → Int × Nat) : List ConfLine → Int × Nat
  | [] => (0, 0)
  | ConfLine.option :: rest => run_lines step rest
  | ConfLine.inc path :: rest =>
    let r := step path
    if r.1 = 0 then
      let r2 := run_lines step rest
      (r2.1, r.2 + r2.2)
    else r

def read_config (fs : ConfigFS) : Nat → Nat → Int × Nat
  | 0, _ => (-2, 0)
  | 1, _ => (-2, 0)
  | budget + 2, file =>
    match List.lookup file fs with
    | none => (-1, 0)
    | some lines =>
      let r := run_lines (fun path => read_config fs budget path) lines
      (r.1, r.2 + 1)

/-- A linear chain of config files: file i includes file i + 1, the last
file n has no include. -/
def chain_fs (n : Nat) : ConfigFS :=
  (List.range (n + 1)).map fun i =>
    (i, if i < n then [ConfLine.inc (i + 1)] else [])

/-- A self-including config file: the shortest cyclic include chain. -/
def cyc_fs : ConfigFS := [(0, [ConfLine.inc 0])]

end Wget2

namespace Wget2

/-! ## Theorems -/

/-- C1 (code bug): when both a Digest and a Basic challenge are offered,
the selection loop picks the Basic challenge, not the Digest one, in either
order of the challenge vector.  The source comment above the loop states the
opposite intent (Prefer Digest over Basic): the comparison results are used
without negation, so a scheme that is NOT digest is selected immediately. -/
theorem c1_code_bug_selects_basic :
    add_authorize_header_select
        [{ auth_scheme := "Digest" }, { auth_scheme := "Basic" }] =
      some { auth_scheme := "Basic" } ∧
    add_authorize_header_select
        [{ auth_scheme := "Basic" }, { auth_scheme := "Digest" }] =
      some { auth_scheme := "Basic" } := by
  decide

/-- C2 counterexample: with config.max_redirect = 0 the redirect gate of
add_url does not stop any redirect (the claim says the first redirect is
stopped, with a diagnostic); the gate lets the job pass and never emits a
diagnostic. -/
theorem c2_counterexample :
    add_url_redirect_gate 0 0 = { stopped := false, diagnostic := none } ∧
    add_url_redirect_gate 0 5 = { stopped := false, diagnostic := none } := by
  decide

/-- C2 amended: max_redirect = 0 disables the redirect cap entirely (every
redirect passes the gate); for max_redirect nonzero, a redirect job whose
redirection_level has reached max_redirect is dropped silently, with no
diagnostic, while lower levels pass; the successor job gets redirection
level incremented by one. -/
theorem c2_amended (max_redirect redirection_level : Int) :
    (add_url_redirect_gate 0 redirection_level).stopped = false ∧
    (max_redirect ≠ 0 → max_redirect ≤ redirection_level →
      add_url_redirect_gate max_redirect redirection_level =
        { stopped := true, diagnostic := none }) ∧
    (max_redirect ≠ 0 → redirection_level < max_redirect →
      (add_url_redirect_gate max_redirect redirection_level).stopped = false) ∧
    redirect_successor_level redirection_level = redirection_level + 1 := by
  refine ⟨?_, ?_, ?_, rfl⟩
  · simp [add_url_redirect_gate]
  · intro h1 h2
    simp [add_url_redirect_gate, h1, h2]
  · intro h1 h2
    have : ¬(max_redirect ≠ 0 ∧ max_redirect ≤ redirection_level) := by
      intro h
      omega
    simp [add_url_redirect_gate, this]

/-- C2 witness: the amended statement evaluated at max_redirect = 20 with
redirection levels 20 (dropped) and 19 (passed). -/
theorem c2_amended_witness :
    add_url_redirect_gate 20 20 = { stopped := true, diagnostic := none } ∧
    (add_url_redirect_gate 20 19).stopped = false :=
  ⟨(c2_amended 20 20).2.1 (by decide) (by decide),
   (c2_amended 20 19).2.2.1 (by decide) (by decide)⟩

/-- C9 counterexample: with config.wait = 3 and random draw 0 the jittered
sleep is 3 / 2 = 1 millisecond, which is strictly below 0.5 times the base
wait (2 * 1 < 3), refuting the claimed lower bound for every draw. -/
theorem c9_counterexample :
    random_wait_sleep 3 0 = 1 ∧ 2 * random_wait_sleep 3 0 < 3 := by
  decide

/-- C9 amended: the jittered sleep draw % wait + wait / 2 (integer division)
lies in the integer interval [wait / 2, wait - 1 + wait / 2]; hence
wait ≤ 2 * sleep + 1 and 2 * sleep ≤ 3 * wait - 2 always hold, and for even
wait the claimed bounds 0.5 * wait ≤ sleep ≤ 1.5 * wait hold exactly. -/
theorem c9_amended (wait draw : Nat) (hw : 0 < wait) :
    wait ≤ 2 * random_wait_sleep wait draw + 1 ∧
    2 * random_wait_sleep wait draw ≤ 3 * wait - 2 ∧
    (wait % 2 = 0 →
      wait ≤ 2 * random_wait_sleep wait draw ∧
      2 * random_wait_sleep wait draw ≤ 3 * wait) := by
  unfold random_wait_sleep
  generalize hgen : draw % wait = r
  have h1 : r < wait := hgen ▸ Nat.mod_lt _ hw
  omega

/-- C9 witness: the amended bounds at wait = 4, draw = 0. -/
theorem c9_amended_witness :
    4 ≤ 2 * random_wait_sleep 4 0 + 1 ∧
    2 * random_wait_sleep 4 0 ≤ 3 * 4 - 2 ∧
    (4 % 2 = 0 →
      4 ≤ 2 * random_wait_sleep 4 0 ∧
      2 * random_wait_sleep 4 0 ≤ 3 * 4) :=
  c9_amended 4 0 (by decide)

/-- C10: parse_bool accepts an explicitly empty value string and treats it
like 0/no/off, yielding the inverted sense of the option (false for a plain
option, true when the name carried the no- inversion), while any value
matching none of the recognized boolean spellings is rejected with an
error. -/
theorem c10_parse_bool_empty :
    (∀ invert : Bool, parse_bool (some "") invert = Except.ok invert) ∧
    (∀ (v : String) (invert : Bool),
      v ≠ "1" → wget_strcasecmp_ascii v "y" ≠ 0 → wget_strcasecmp_ascii v "yes" ≠ 0 →
      wget_strcasecmp_ascii v "on" ≠ 0 →
      v ≠ "" → v ≠ "0" → wget_strcasecmp_ascii v "n" ≠ 0 →
      wget_strcasecmp_ascii v "no" ≠ 0 → wget_strcasecmp_ascii v "off" ≠ 0 →
      parse_bool (some v) invert = Except.error ()) := by
  constructor
  · intro invert
    cases invert <;> rfl
  · intro v invert h1 h2 h3 h4 h5 h6 h7 h8 h9
    have hc1 : ¬(v = "1" ∨ wget_strcasecmp_ascii v "y" = 0 ∨ wget_strcasecmp_ascii v "yes" = 0
        ∨ wget_strcasecmp_ascii v "on" = 0) := by
      push_neg
      exact ⟨h1, h2, h3, h4⟩
    have hc2 : ¬(v = "" ∨ v = "0" ∨ wget_strcasecmp_ascii v "n" = 0
        ∨ wget_strcasecmp_ascii v "no" = 0 ∨ wget_strcasecmp_ascii v "off" = 0) := by
      push_neg
      exact ⟨h5, h6, h7, h8, h9⟩
    simp [parse_bool, hc1, hc2]

/-- C10 witness: the empty value is accepted for both option senses, and a
concrete unrecognized value is rejected. -/
theorem c10_parse_bool_empty_witness :
    parse_bool (some "") false = Except.ok false ∧
    parse_bool (some "") true = Except.ok true ∧
    parse_bool (some "maybe") false = Except.error () :=
  ⟨c10_parse_bool_empty.1 false,
   c10_parse_bool_empty.1 true,
   c10_parse_bool_empty.2 "maybe" false (by decide) (by decide) (by decide) (by decide)
     (by decide) (by decide) (by decide) (by decide) (by decide)⟩

/-- Helper for C6: folding set_exit_status from a nonzero accumulator over a
list of nonzero statuses yields a lower bound of everything seen, is one of
the values seen, and stays nonzero. -/
theorem exit_fold_facts (l : List Nat) : ∀ acc : Nat, acc ≠ 0 → (∀ s ∈ l, s ≠ 0) →
    l.foldl set_exit_status acc ≤ acc ∧
    (∀ s ∈ l, l.foldl set_exit_status acc ≤ s) ∧
    (l.foldl set_exit_status acc = acc ∨ l.foldl set_exit_status acc ∈ l) ∧
    l.foldl set_exit_status acc ≠ 0 := by
  induction l with
  | nil =>
    intro acc hacc _
    exact ⟨le_refl _, by simp, Or.inl rfl, hacc⟩
  | cons s t ih =>
    intro acc hacc hall
    have hs : s ≠ 0 := hall s (List.mem_cons_self _ _)
    have hstep_ne : set_exit_status acc s ≠ 0 := by
      unfold set_exit_status
      split_ifs <;> omega
    have hstep_le_acc : set_exit_status acc s ≤ acc := by
      unfold set_exit_status
      split_ifs <;> omega
    have hstep_le_s : set_exit_status acc s ≤ s := by
      unfold set_exit_status
      split_ifs <;> omega
    have hstep_cases : set_exit_status acc s = s ∨ set_exit_status acc s = acc := by
      unfold set_exit_status
      split_ifs <;> simp
    obtain ⟨hle, hall2, hmem, hne⟩ :=
      ih (set_exit_status acc s) hstep_ne (fun x hx => hall x (List.mem_cons_of_mem _ hx))
    rw [List.foldl_cons]
    refine ⟨le_trans hle hstep_le_acc, ?_, ?_, hne⟩
    · intro x hx
      rcases List.mem_cons.mp hx with hx | hx
      · subst hx
        exact le_trans hle hstep_le_s
      · exact hall2 x hx
    · rcases hmem with hmem | hmem
      · rcases hstep_cases with hc | hc
        · right
          rw [hmem, hc]
          exact List.mem_cons_self _ _
        · left
          rw [hmem, hc]
      · exact Or.inr (List.mem_cons_of_mem _ hmem)

/-- C5: on a 401 response, a job whose auth failure count was 0 and whose
response carries challenges gets the challenges attached and is re-enqueued
(inuse cleared) with its count at 1; otherwise (count already at least 1, or
no challenges) the exit status is set to the Auth code while inuse and the
attached challenges are left alone, so no further auth retry happens; and a
first 401 followed by a successful response leaves the count at exactly 1. -/
theorem c5_auth_retry :
    (∀ (job : JobAuthState) (chs : List HttpChallenge),
      job.auth_failure_count = 0 →
      process_response_401 job (some chs) =
        { job with auth_failure_count := 1, challenges := some chs, inuse := false }) ∧
    (∀ (job : JobAuthState) (resp_challenges : Option (List HttpChallenge)),
      1 ≤ job.auth_failure_count ∨ resp_challenges = none →
      (process_response_401 job resp_challenges).exit_status =
          set_exit_status job.exit_status WG_EXIT_STATUS_AUTH ∧
      (process_response_401 job resp_challenges).inuse = job.inuse ∧
      (process_response_401 job resp_challenges).challenges = job.challenges) ∧
    (∀ (job : JobAuthState) (chs : List HttpChallenge),
      job.auth_failure_count = 0 →
      (run_responses job [(401, some chs), (200, none)]).auth_failure_count = 1) := by
  refine ⟨?_, ?_, ?_⟩
  · intro job chs h
    simp [process_response_401, h]
  · intro job resp_challenges h
    have hcond : 1 < job.auth_failure_count + 1 ∨ resp_challenges = none := by
      rcases h with h | h
      · left
        omega
      · right
        exact h
    have hres : process_response_401 job resp_challenges =
        { job with
            auth_failure_count := job.auth_failure_count + 1,
            exit_status := set_exit_status job.exit_status WG_EXIT_STATUS_AUTH } := by
      simp only [process_response_401]
      rw [if_pos hcond]
    rw [hres]
    exact ⟨rfl, rfl, rfl⟩
  · intro job chs h
    simp [run_responses, process_response_auth, process_response_401, h]

/-- C5 witness: the three parts of the 401 theorem evaluated on a fresh job
(count 0) and on a job that already failed once. -/
theorem c5_auth_retry_witness :
    process_response_401 job0 (some [{ auth_scheme := "Basic" }]) =
      { job0 with
          auth_failure_count := 1,
          challenges := some [{ auth_scheme := "Basic" }],
          inuse := false } ∧
    (process_response_401 { job0 with auth_failure_count := 1 } none).exit_status =
      set_exit_status job0.exit_status WG_EXIT_STATUS_AUTH ∧
    (run_responses job0 [(401, some []), (200, none)]).auth_failure_count = 1 :=
  ⟨c5_auth_retry.1 job0 [{ auth_scheme := "Basic" }] rfl,
   (c5_auth_retry.2.1 { job0 with auth_failure_count := 1 } none (Or.inr rfl)).1,
   c5_auth_retry.2.2 job0 [] rfl⟩

/-- C6 counterexample: set_exit_status applied to the sequence 2, 0 leaves
the stored status at 0, not at the smallest nonzero code 2.  The sequence is
real: main (src/wget.c lines 1032..1037) first sets WG_EXIT_STATUS_PARSE_INIT
= 2 and then resets with WG_EXIT_STATUS_NO_ERROR = 0, which the claim, as a
statement over every sequence of statuses, rules out. -/
theorem c6_counterexample :
    exit_status_after [2, 0] = 0 ∧ (0 : Nat) ≠ 2 := by
  decide

/-- C6 amended: over every sequence of NONZERO statuses, in any order, the
stored exit status is exactly the minimum of the sequence (and it is 0 only
for the empty sequence); passing status 0 is a deliberate reset and is
excluded from the minimum rule. -/
theorem c6_amended (l : List Nat) (hnz : ∀ s ∈ l, s ≠ 0) :
    (exit_status_after l = 0 ↔ l = []) ∧
    (∀ s ∈ l, exit_status_after l ≤ s) ∧
    (l ≠ [] → exit_status_after l ∈ l) := by
  cases l with
  | nil =>
    refine ⟨by simp [exit_status_after], by simp, by simp⟩
  | cons s t =>
    have hs : s ≠ 0 := hnz s (List.mem_cons_self _ _)
    have h0 : exit_status_after (s :: t) = t.foldl set_exit_status s := by
      simp [exit_status_after, set_exit_status]
    obtain ⟨hle, hall, hmem, hne⟩ :=
      exit_fold_facts t s hs (fun x hx => hnz x (List.mem_cons_of_mem _ hx))
    rw [h0]
    refine ⟨⟨fun hz => absurd hz hne, fun h => List.noConfusion h⟩, ?_, ?_⟩
    · intro x hx
      rcases List.mem_cons.mp hx with hx | hx
      · subst hx
        exact hle
      · exact hall x hx
    · intro _
      rcases hmem with hmem | hmem
      · rw [hmem]
        exact List.mem_cons_self _ _
      · exact List.mem_cons_of_mem _ hmem

/-- C6 witness: the amended minimum rule on the nonzero sequence 4, 3, 5
(network, then I/O, then TLS errors): the stored status is 3 and bounds
every code observed. -/
theorem c6_amended_witness :
    (exit_status_after [4, 3, 5] = 0 ↔ ([4, 3, 5] : List Nat) = []) ∧
    (∀ s ∈ ([4, 3, 5] : List Nat), exit_status_after [4, 3, 5] ≤ s) ∧
    (([4, 3, 5] : List Nat) ≠ [] → exit_status_after [4, 3, 5] ∈ ([4, 3, 5] : List Nat)) :=
  c6_amended [4, 3, 5] (by decide)

/-- C7: for any received response with a 2xx or 3xx status, the GET_RESPONSE
arm resets the host failure counter as its first event, every dispatch event
comes strictly after it, and no failure increase occurs. -/
theorem c7_reset_before_dispatch (r : RespState)
    (h2 : 200 ≤ r.code) (h3 : r.code < 400) :
    (get_response_step (some r)).head? = some WorkerEvent.resetFailure ∧
    (∀ i e, (get_response_step (some r)).get? i = some e →
      e.isDispatch = true → 1 ≤ i) ∧
    WorkerEvent.increaseFailure ∉ get_response_step (some r) := by
  refine ⟨rfl, ?_, ?_⟩
  · intro i e hget hd
    match i with
    | 0 =>
      simp [get_response_step] at hget
      subst hget
      simp [WorkerEvent.isDispatch] at hd
    | n + 1 =>
      omega
  · intro hmem
    simp only [get_response_step] at hmem
    rcases List.mem_cons.mp hmem with h | h
    · exact WorkerEvent.noConfusion h
    · split at h
      · simp only [List.mem_singleton] at h
        split at h
        · exact WorkerEvent.noConfusion h
        · split at h
          · exact WorkerEvent.noConfusion h
          · exact WorkerEvent.noConfusion h
      · simp at h

/-- C7 witness: the event order at a concrete 200 response dispatched to the
normal body processor. -/
theorem c7_reset_before_dispatch_witness :
    (get_response_step (some resp200)).head? = some WorkerEvent.resetFailure ∧
    (∀ i e, (get_response_step (some resp200)).get? i = some e →
      e.isDispatch = true → 1 ≤ i) ∧
    WorkerEvent.increaseFailure ∉ get_response_step (some resp200) :=
  c7_reset_before_dispatch resp200 (by decide) (by decide)

/-- Helper for C3: the parts take exactly the remaining size, capped by the
total piece length. -/
theorem parts_loop_sum (pieces : List MetalinkPiece) :
    ∀ i pos fsize,
      ((job_create_parts_loop pieces i pos fsize).map PART.length).sum =
        min fsize ((pieces.map MetalinkPiece.length).sum) := by
  induction pieces with
  | nil =>
    intro i pos fsize
    simp [job_create_parts_loop]
  | cons p ps ih =>
    intro i pos fsize
    simp only [job_create_parts_loop, List.map_cons, List.sum_cons, ih]
    omega

/-- Helper for C3: the parts are laid out consecutively from the start
position. -/
theorem parts_loop_chained (pieces : List MetalinkPiece) :
    ∀ i pos fsize, chainedFrom pos (job_create_parts_loop pieces i pos fsize) = true := by
  induction pieces with
  | nil =>
    intro i pos fsize
    rfl
  | cons p ps ih =>
    intro i pos fsize
    simp [job_create_parts_loop, chainedFrom, ih]

/-- Helper for C3: every produced part has id and position at least the
running values. -/
theorem parts_loop_mem_bounds (pieces : List MetalinkPiece) :
    ∀ i pos fsize p, p ∈ job_create_parts_loop pieces i pos fsize →
      i ≤ p.id ∧ pos ≤ p.position := by
  induction pieces with
  | nil =>
    intro i pos fsize p h
    simp [job_create_parts_loop] at h
  | cons q ps ih =>
    intro i pos fsize p h
    simp only [job_create_parts_loop, List.mem_cons] at h
    rcases h with h | h
    · subst h
      exact ⟨le_refl _, le_refl _⟩
    · obtain ⟨h1, h2⟩ := ih _ _ _ p h
      constructor
      · omega
      · omega

/-- Helper for C3: whenever every piece has positive length and every proper
prefix of the pieces sums to less than the remaining bytes, the produced
parts are pairwise ordered and non-overlapping. -/
theorem parts_loop_pairwise_general :
    ∀ (pieces : List MetalinkPiece) (i pos fsize : Nat),
      (∀ q ∈ pieces, 0 < q.length) →
      (∀ k, k < pieces.length →
        (((pieces.take k).map MetalinkPiece.length).sum) < fsize) →
      (job_create_parts_loop pieces i pos fsize).Pairwise partBefore := by
  intro pieces
  induction pieces with
  | nil =>
    intro i pos fsize _ _
    simp [job_create_parts_loop]
  | cons q ps ih =>
    intro i pos fsize hpos hpre
    have hq : 0 < q.length := hpos q (List.mem_cons_self _ _)
    have hf0 : 0 < fsize := by
      have h := hpre 0 (by simp)
      simpa using h
    have hlen0 : 0 < min q.length fsize := by
      omega
    simp only [job_create_parts_loop]
    rw [List.pairwise_cons]
    constructor
    · intro r hr
      obtain ⟨h1, h2⟩ :=
        parts_loop_mem_bounds ps (i + 1) (pos + min q.length fsize) (fsize - q.length) r hr
      refine ⟨?_, ?_, ?_⟩
      · show i < r.id
        omega
      · show pos < r.position
        omega
      · show pos + min q.length fsize ≤ r.position
        omega
    · apply ih (i + 1) (pos + min q.length fsize) (fsize - q.length)
        (fun r hr => hpos r (List.mem_cons_of_mem _ hr))
      intro k hk
      have h := hpre (k + 1) (by simp only [List.length_cons]; omega)
      rw [List.take_succ_cons, List.map_cons, List.sum_cons] at h
      omega

/-- Helper for C3: the ceiling division bound from above. -/
theorem ceil_mul_ge (L C : Nat) (hC : 0 < C) : L ≤ ((L + C - 1) / C) * C := by
  have hdm := Nat.div_add_mod (L + C - 1) C
  have hlt : (L + C - 1) % C < C := Nat.mod_lt _ hC
  rw [Nat.mul_comm]
  generalize hq : (L + C - 1) / C = q at *
  generalize hr : (L + C - 1) % C = r at *
  generalize hx : C * q = x at *
  omega

/-- Helper for C3: all pieces except possibly the last fit strictly below
the total size. -/
theorem ceil_pred_mul_lt (L C : Nat) (hC : 0 < C) (hL : 0 < L) :
    (((L + C - 1) / C) - 1) * C < L := by
  have hub : ((L + C - 1) / C) * C ≤ L + C - 1 := Nat.div_mul_le_self _ _
  generalize hq : (L + C - 1) / C = q at *
  cases q with
  | zero =>
    simpa using hL
  | succ n =>
    have h1 : (n + 1) * C = n * C + C := by
      ring
    have h2 : (n + 1 - 1) * C = n * C := by
      simp
    rw [h2]
    rw [h1] at hub
    generalize n * C = t at *
    omega

/-- Helper for C3: the synthesized pieces all carry length chunk_size. -/
theorem synthesize_pieces_length_const (L C : Nat) :
    ∀ q ∈ (synthesize_metalink L C).pieces, q.length = C := by
  intro q hq
  simp only [synthesize_metalink, List.mem_map, List.mem_range] at hq
  obtain ⟨it, _, rfl⟩ := hq
  rfl

/-- Helper for C3: the lengths of the synthesized pieces form a constant
list of chunk sizes. -/
theorem synthesize_pieces_map_length (L C : Nat) :
    (synthesize_metalink L C).pieces.map MetalinkPiece.length =
      List.replicate ((L + C - 1) / C) C := by
  simp only [synthesize_metalink, List.map_map]
  have h : (MetalinkPiece.length ∘ fun it : Nat =>
      ({ position := it * C, length := C } : MetalinkPiece)) = fun _ => C := rfl
  rw [h, List.map_const', List.length_range]

/-- Helper for C3: the total length of the synthesized pieces. -/
theorem synthesize_pieces_sum (L C : Nat) :
    (((synthesize_metalink L C).pieces.map MetalinkPiece.length).sum) =
      ((L + C - 1) / C) * C := by
  rw [synthesize_pieces_map_length, List.sum_replicate, smul_eq_mul]

/-- Helper for C3: every proper prefix of the synthesized pieces sums to
k times the chunk size, strictly below the content length. -/
theorem synthesize_pieces_take_sum_lt (L C : Nat) (hC : 0 < C) (hL0 : 0 < L)
    (k : Nat) (hk : k < (L + C - 1) / C) :
    ((((synthesize_metalink L C).pieces.take k).map MetalinkPiece.length).sum) < L := by
  rw [List.map_take, synthesize_pieces_map_length, List.take_replicate,
    List.sum_replicate, smul_eq_mul]
  have hmin : min k ((L + C - 1) / C) = k := by
    omega
  rw [hmin]
  have h1 : k * C ≤ (((L + C - 1) / C) - 1) * C := by
    apply Nat.mul_le_mul_right
    omega
  exact lt_of_le_of_lt h1 (ceil_pred_mul_lt L C hC hL0)

/-- C3 counterexample: the claim quantifies over every metalink job, but a
parsed metalink description may declare a size its pieces do not cover; on
the modelled part construction a metalink of size 10 with a single piece of
length 3 yields one part of length 3, so the part lengths sum to 3, not to
metalink.size = 10, refuting the universal sum invariant. -/
theorem c3_counterexample :
    ((job_create_parts 10 [{ position := 0, length := 3 }]).map PART.length).sum = 3 ∧
    (3 : Nat) ≠ 10 := by
  decide

/-- C3 amended: for every metalink or synthesized chunked job whose pieces
are well-formed - every piece length positive, every proper prefix of the
pieces summing to less than metalink.size, and the total piece length at
least metalink.size (true of a parsed metalink whose pieces tile the
declared size, and of every synthesized chunked metalink) - the parts built
from the pieces have lengths summing to exactly metalink.size, are pairwise
non-overlapping with ids and positions strictly increasing, tile the file
consecutively from byte 0, and the Range request of every part covers bytes
position .. position + length - 1.  In particular, for a synthesized chunked
metalink with Content-Length L and chunk size C (0 < C < L), the number of
pieces is the ceiling of L / C and the pieces sit at positions 0, C, 2C, ...,
with all of the above holding for the resulting parts. -/
theorem c3_parts_invariant :
    (∀ (size : Nat) (pieces : List MetalinkPiece),
      (∀ q ∈ pieces, 0 < q.length) →
      size ≤ (pieces.map MetalinkPiece.length).sum →
      (∀ k, k < pieces.length →
        (((pieces.take k).map MetalinkPiece.length).sum) < size) →
      ((job_create_parts size pieces).map PART.length).sum = size ∧
      (job_create_parts size pieces).Pairwise partBefore ∧
      chainedFrom 0 (job_create_parts size pieces) = true ∧
      (∀ p ∈ job_create_parts size pieces,
        part_range_header p = (p.position, p.position + p.length - 1))) ∧
    (∀ L C : Nat, 0 < C → C < L →
      (synthesize_metalink L C).pieces.length = (L + C - 1) / C ∧
      (∀ i, i < (L + C - 1) / C →
        ((synthesize_metalink L C).pieces.get? i) =
          some { position := i * C, length := C }) ∧
      ((job_create_parts (synthesize_metalink L C).size
          (synthesize_metalink L C).pieces).map PART.length).sum =
        (synthesize_metalink L C).size ∧
      (job_create_parts (synthesize_metalink L C).size
          (synthesize_metalink L C).pieces).Pairwise partBefore ∧
      chainedFrom 0 (job_create_parts (synthesize_metalink L C).size
          (synthesize_metalink L C).pieces) = true ∧
      (∀ p ∈ job_create_parts (synthesize_metalink L C).size
          (synthesize_metalink L C).pieces,
        part_range_header p = (p.position, p.position + p.length - 1))) := by
  have hgen : ∀ (size : Nat) (pieces : List MetalinkPiece),
      (∀ q ∈ pieces, 0 < q.length) →
      size ≤ (pieces.map MetalinkPiece.length).sum →
      (∀ k, k < pieces.length →
        (((pieces.take k).map MetalinkPiece.length).sum) < size) →
      ((job_create_parts size pieces).map PART.length).sum = size ∧
      (job_create_parts size pieces).Pairwise partBefore ∧
      chainedFrom 0 (job_create_parts size pieces) = true ∧
      (∀ p ∈ job_create_parts size pieces,
        part_range_header p = (p.position, p.position + p.length - 1)) := by
    intro size pieces hpos hcov hpre
    refine ⟨?_, ?_, ?_, ?_⟩
    · rw [job_create_parts, parts_loop_sum]
      exact Nat.min_eq_left hcov
    · rw [job_create_parts]
      exact parts_loop_pairwise_general pieces 1 0 size hpos hpre
    · rw [job_create_parts]
      exact parts_loop_chained _ _ _ _
    · intro p _
      rfl
  refine ⟨hgen, ?_⟩
  intro L C hC hL
  have hL0 : 0 < L := by
    omega
  have hpos : ∀ q ∈ (synthesize_metalink L C).pieces, 0 < q.length := by
    intro q hq
    rw [synthesize_pieces_length_const L C q hq]
    exact hC
  have hcov : L ≤ ((synthesize_metalink L C).pieces.map MetalinkPiece.length).sum := by
    rw [synthesize_pieces_sum]
    exact ceil_mul_ge L C hC
  have hnp : (synthesize_metalink L C).pieces.length = (L + C - 1) / C := by
    simp [synthesize_metalink]
  have hpre : ∀ k, k < (synthesize_metalink L C).pieces.length →
      ((((synthesize_metalink L C).pieces.take k).map MetalinkPiece.length).sum) < L := by
    intro k hk
    rw [hnp] at hk
    exact synthesize_pieces_take_sum_lt L C hC hL0 k hk
  obtain ⟨hsum, hpw, hch, hrange⟩ :=
    hgen (synthesize_metalink L C).size (synthesize_metalink L C).pieces hpos hcov hpre
  refine ⟨hnp, ?_, hsum, hpw, hch, hrange⟩
  intro i hi
  simp [synthesize_metalink, List.get?_map, List.get?_range, hi]

/-- C3 witness: the amended invariant on a parsed-style metalink of size 10
tiled by three pieces of lengths 4, 4, 2, and on the synthesized chunked
metalink for Content-Length 10 with chunk size 3 (four pieces at 0, 3, 6, 9,
parts of lengths 3, 3, 3, 1). -/
theorem c3_parts_invariant_witness :
    (((job_create_parts 10
        [{ position := 0, length := 4 }, { position := 4, length := 4 },
         { position := 8, length := 2 }]).map PART.length).sum = 10 ∧
      (job_create_parts 10
        [{ position := 0, length := 4 }, { position := 4, length := 4 },
         { position := 8, length := 2 }]).Pairwise partBefore ∧
      chainedFrom 0 (job_create_parts 10
        [{ position := 0, length := 4 }, { position := 4, length := 4 },
         { position := 8, length := 2 }]) = true ∧
      (∀ p ∈ job_create_parts 10
        [{ position := 0, length := 4 }, { position := 4, length := 4 },
         { position := 8, length := 2 }],
        part_range_header p = (p.position, p.position + p.length - 1))) ∧
    ((synthesize_metalink 10 3).pieces.length = (10 + 3 - 1) / 3 ∧
      (∀ i, i < (10 + 3 - 1) / 3 →
        ((synthesize_metalink 10 3).pieces.get? i) =
          some { position := i * 3, length := 3 }) ∧
      ((job_create_parts (synthesize_metalink 10 3).size
          (synthesize_metalink 10 3).pieces).map PART.length).sum =
        (synthesize_metalink 10 3).size ∧
      (job_create_parts (synthesize_metalink 10 3).size
          (synthesize_metalink 10 3).pieces).Pairwise partBefore ∧
      chainedFrom 0 (job_create_parts (synthesize_metalink 10 3).size
          (synthesize_metalink 10 3).pieces) = true ∧
      (∀ p ∈ job_create_parts (synthesize_metalink 10 3).size
          (synthesize_metalink 10 3).pieces,
        part_range_header p = (p.position, p.position + p.length - 1))) :=
  ⟨c3_parts_invariant.1 10
      [{ position := 0, length := 4 }, { position := 4, length := 4 },
       { position := 8, length := 2 }]
      (by decide) (by decide) (by decide),
   c3_parts_invariant.2 10 3 (by decide) (by decide)⟩

/-- C4 counterexample: with Content-Length exactly equal to the chunk size
(both 5), process_head_response does not enter the metalink synthesis at
all: the job is re-queued for a plain GET (plainRetry), so no part is
constructed, contradicting the claim that the part-construction path
produces a single part. -/
theorem c4_counterexample :
    process_head_response_next false 5 5 = HeadNext.plainRetry ∧
    HeadNext.plainRetry ≠ HeadNext.chunkedDownload (synthesize_metalink 5 5) := by
  decide

/-- C4 amended: when 0 < chunk_size and Content-Length is at most chunk_size
(equality included), the metalink synthesis is skipped (it requires
Content-Length strictly greater than chunk_size) and the job is re-queued as
a single plain GET; that request carries no Range header (job->part is null),
so the whole file is fetched in one request - one download, but no part
structure is built. -/
theorem c4_amended (chunk_size content_length : Nat) (hc : 0 < chunk_size)
    (hle : content_length ≤ chunk_size) :
    process_head_response_next false chunk_size content_length = HeadNext.plainRetry ∧
    job_range_header none = none := by
  constructor
  · have h1 : ¬(false = true ∨ chunk_size = 0) := by
      intro h
      rcases h with h | h
      · exact Bool.noConfusion h
      · omega
    have h2 : ¬(chunk_size ≠ 0 ∧ chunk_size < content_length) := by
      intro h
      omega
    simp only [process_head_response_next]
    rw [if_neg h1, if_neg h2]
  · rfl

/-- C4 witness: the amended statement at chunk size and Content-Length both 5. -/
theorem c4_amended_witness :
    process_head_response_next false 5 5 = HeadNext.plainRetry ∧
    job_range_header none = none :=
  c4_amended 5 5 (by decide) (by decide)

/-- C8 counterexample: in a linear chain of 11 config files (file i includes
file i + 1), the top-level load reads only the first 10 files and rejects
the 10th nested include with the recursion error -2, although its nesting
depth 10 is well below the 20 the claim says is allowed: each include costs
two increments of the recursion counter (glob-expansion frame plus read
frame), so the cap of 20 cuts the chain at depth 9, not 20. -/
theorem c8_counterexample :
    read_config (chain_fs 10) 20 0 = (-2, 10) := by
  decide

/-- C8 amended: the recursion counter is capped at 20 but every include
consumes two increments, so include chains are followed to nesting depth 9
only: a chain of 9 nested includes (10 files) is read completely with return
code 0, while a cyclic include chain is always cut off with error -2 after
reading budget / 2 files, whatever budget remains - recursion is bounded and
cyclic chains terminate. -/
theorem c8_amended :
    read_config (chain_fs 9) 20 0 = (0, 10) ∧
    ∀ bud : Nat, read_config cyc_fs bud 0 = (-2, bud / 2) := by
  constructor
  · decide
  · intro bud
    induction bud using Nat.strong_induction_on with
    | _ bud ih =>
      match bud with
      | 0 => rfl
      | 1 => rfl
      | b + 2 =>
        have hb : read_config cyc_fs b 0 = (-2, b / 2) := ih b (by omega)
        have h2 : (b + 2) / 2 = b / 2 + 1 := by
          omega
        have hlook : List.lookup 0 cyc_fs = some [ConfLine.inc 0] := rfl
        simp only [read_config, hlook, run_lines, hb]
        rw [h2]
        norm_num

end Wget2
